import Mathlib

/-!
Verification of the pure-effect core (src/index.js).

Shallow embedding of the effect algebra: the three `Effect` variants
(`Success`, `Failure`, `Command`), the `chain` combinator, the
`effectPipe` pipeline builder, and the `runEffect` interpreter.

Modelling conventions:
* JavaScript functions that may throw are embedded with an explicit
  result type: an operation (`cmd`) is interpreted by a semantics
  `sem : ι → Except ε α` (`.error e` models "throws / the awaited
  promise rejects with `e`"); a continuation (`next`) returns an
  `EffRes`, whose `.thrown e` constructor models a synchronous throw.
* Operations are identified by an abstract type `ι` of command labels
  (the zero-argument closures of the source); only `runEffect` receives
  the semantics `sem`, so `chain` and `effectPipe` cannot invoke an
  operation — exactly the source's deferred-execution discipline.
* The interpreter's `while` loop becomes structural recursion over the
  (finite, by the inductive type) `Command` chain; instrumented
  variants (`runTrace`, `runIters`, `runCatches`) transcribe the same
  loop while recording which commands were invoked, how many loop
  iterations ran, and whether the `catch` branch ever fired.
-/

namespace PureEffect

mutual

/-- The `Effect` tagged union of `src/index.js`:
`Success value`, `Failure error`, and `Command cmd next` where `cmd` is
the label of a deferred zero-argument operation and `next` the
continuation consuming its result (which, being an arbitrary JS
function, may throw — hence the `EffRes` codomain). -/
inductive Effect (ι ε α : Type) : Type where
  | Success : α → Effect ι ε α
  | Failure : ε → Effect ι ε α
  | Command : ι → (α → EffRes ι ε α) → Effect ι ε α

/-- Result of calling a continuation: either it throws synchronously
(`thrown e`) or it returns an effect (`ok eff`). -/
inductive EffRes (ι ε α : Type) : Type where
  | thrown : ε → EffRes ι ε α
  | ok : Effect ι ε α → EffRes ι ε α

end

mutual

/-- Embedding of `chain(effect, fn)` from `src/index.js`:
`Success` applies `fn` to the value in tail position, `Failure` is
returned unchanged, and `Command` is rebuilt with the same `cmd` and
the continuation `fun result => chain (effect.next result) fn` —
where applying the stored continuation may throw, which `chainR`
threads through. -/
def chain (effect : Effect ι ε α) (fn : α → Effect ι ε α) : Effect ι ε α :=
  match effect with
  | .Success v => fn v
  | .Failure e => .Failure e
  | .Command c next => .Command c (fun result => chainR (next result) fn)

/-- Lifting of `chain` to a possibly-thrown effect: the JS expression
`chain(effect.next(result), fn)` propagates a throw raised by
`effect.next(result)` and otherwise chains the returned effect. -/
def chainR (res : EffRes ι ε α) (fn : α → Effect ι ε α) : EffRes ι ε α :=
  match res with
  | .thrown e => .thrown e
  | .ok eff => .ok (chain eff fn)

end

/-- Embedding of `effectPipe(...fns)` from `src/index.js`:
`(start) => fns.reduce(chain, Success(start))`, i.e. a left fold of
`chain` over the steps starting from `Success start`. -/
def effectPipe (fns : List (α → Effect ι ε α)) : α → Effect ι ε α :=
  fun start => fns.foldl chain (Effect.Success start)

mutual

/-- Embedding of `runEffect(effect)` from `src/index.js`: while the current effect
is a `Command`, run its operation (via the semantics `sem`; `.error e`
models a throw/rejection) and feed the result to the continuation;
the single `try`/`catch` per iteration converts a throw of either the
operation or the continuation into `Failure e`; a terminal `Success`
or `Failure` is returned as-is. -/
def runEffect (sem : ι → Except ε α) : Effect ι ε α → Effect ι ε α
  | .Success v => .Success v
  | .Failure e => .Failure e
  | .Command c next =>
    match sem c with
    | .error e => .Failure e
    | .ok r => runEffectR sem (next r)

/-- Continuing the interpreter loop after applying the continuation:
a synchronous throw of the continuation is converted to `Failure e` by
the iteration's `catch`; otherwise the loop continues on the returned
effect. -/
def runEffectR (sem : ι → Except ε α) : EffRes ι ε α → Effect ι ε α
  | .thrown e => .Failure e
  | .ok eff => runEffect sem eff

end

mutual

/-- The same loop as `runEffect`, recording the labels of the commands
whose operation is actually invoked, in invocation order. -/
def runTrace (sem : ι → Except ε α) : Effect ι ε α → List ι
  | .Success _ => []
  | .Failure _ => []
  | .Command c next =>
    match sem c with
    | .error _ => [c]
    | .ok r => c :: runTraceR sem (next r)

/-- Trace of the rest of the loop after applying a continuation. -/
def runTraceR (sem : ι → Except ε α) : EffRes ι ε α → List ι
  | .thrown _ => []
  | .ok eff => runTrace sem eff

end

mutual

/-- The same loop as `runEffect`, counting loop iterations (each
iteration of the `while` body counts once). -/
def runIters (sem : ι → Except ε α) : Effect ι ε α → Nat
  | .Success _ => 0
  | .Failure _ => 0
  | .Command c next =>
    match sem c with
    | .error _ => 1
    | .ok r => 1 + runItersR sem (next r)

/-- Iteration count of the rest of the loop after a continuation. -/
def runItersR (sem : ι → Except ε α) : EffRes ι ε α → Nat
  | .thrown _ => 0
  | .ok eff => runIters sem eff

end

mutual

/-- The same loop as `runEffect`, recording whether the `catch` branch
ever fires (i.e. whether some operation or continuation throws during
the run). -/
def runCatches (sem : ι → Except ε α) : Effect ι ε α → Bool
  | .Success _ => false
  | .Failure _ => false
  | .Command c next =>
    match sem c with
    | .error _ => true
    | .ok r => runCatchesR sem (next r)

/-- Catch-flag of the rest of the loop after a continuation. -/
def runCatchesR (sem : ι → Except ε α) : EffRes ι ε α → Bool
  | .thrown _ => true
  | .ok eff => runCatches sem eff

end

/-- Whether an effect is a `Command` (i.e. not a terminal outcome). -/
def isCommand : Effect ι ε α → Bool
  | .Command _ _ => true
  | _ => false

/-- The label of the deferred operation at the head of an effect, if
the effect is a `Command`. -/
def headCmd : Effect ι ε α → Option ι
  | .Command c _ => some c
  | _ => none

/-- A straight-line chain of commands with the given labels, each
continuation ignoring its result and never throwing, ending in the
effect `term`. -/
def linChain (cs : List ι) (term : Effect ι ε α) : Effect ι ε α :=
  cs.foldr (fun c acc => .Command c (fun _ => .ok acc)) term

/-- The pipeline fold as worded by the spec (section 4.2): "begin with
Outcome-Success(start), and for each step in order,
accumulated = Chain(accumulated, step)". Written as explicit
accumulator-passing recursion, to be compared with `effectPipe`'s
source-derived `reduce`. -/
def pipeSpecGo (acc : Effect ι ε α) : List (α → Effect ι ε α) → Effect ι ε α
  | [] => acc
  | s :: rest => pipeSpecGo (chain acc s) rest

/-- The spec-worded pipeline: start from `Success start` and fold the
steps in order with `chain` via `pipeSpecGo`. -/
def pipeSpec (steps : List (α → Effect ι ε α)) (start : α) : Effect ι ε α :=
  pipeSpecGo (.Success start) steps

/-- A step that always succeeds, returning `Success (g v)` on input
`v`; used to state the success-threading property. -/
def pureStep (g : α → α) : α → Effect ι ε α :=
  fun v => .Success (g v)

mutual

/-- Dynamic-dispatch model of an arbitrary JavaScript object reaching
the effect algebra. The first three constructors are the recognised
variants; `Unknown tag p` stands for an object whose `type` field is
the string `tag` — none of the three recognised ones — with payload
`p`. Continuations return a `DynRes`: throw, an object, or
`undefined`. -/
inductive DynEffect (ι ε α π : Type) : Type where
  | Success : α → DynEffect ι ε α π
  | Failure : ε → DynEffect ι ε α π
  | Command : ι → (α → DynRes ι ε α π) → DynEffect ι ε α π
  | Unknown : String → π → DynEffect ι ε α π

/-- Result of a JavaScript call in the dynamic model: a synchronous
throw, the value `undefined`, or an object. -/
inductive DynRes (ι ε α π : Type) : Type where
  | thrown : ε → DynRes ι ε α π
  | undef : DynRes ι ε α π
  | ok : DynEffect ι ε α π → DynRes ι ε α π

end

mutual

/-- Embedding of `chain` over the dynamic model: the `switch` on
`effect.type` has no `default` branch, so an object matching no case
makes `chain` return `undefined`, modelled as `none`. `te` is the
native `TypeError` raised when `effect.type` is read off `undefined`. -/
def chainDyn (te : ε) (effect : DynEffect ι ε α π) (fn : α → DynEffect ι ε α π) :
    Option (DynEffect ι ε α π) :=
  match effect with
  | .Success v => some (fn v)
  | .Failure e => some (.Failure e)
  | .Command c next => some (.Command c (fun result => chainDynR te (next result) fn))
  | .Unknown _ _ => none

/-- Evaluation of `chain(effect.next(result), fn)` in the dynamic
model: a throw from `effect.next(result)` propagates; if it returned
`undefined`, reading `.type` in `chain` throws a `TypeError` (`te`);
otherwise `chain` runs, and its `undefined` outcome (no switch case
matched) makes the built continuation return `undefined`. -/
def chainDynR (te : ε) (res : DynRes ι ε α π) (fn : α → DynEffect ι ε α π) :
    DynRes ι ε α π :=
  match res with
  | .thrown e => .thrown e
  | .undef => .thrown te
  | .ok eff =>
    match chainDyn te eff fn with
    | some eff2 => .ok eff2
    | none => .undef

end

mutual

/-- Embedding of `runEffect` over the dynamic model: the `while` loop
tests `effect.type === 'Command'`, so any object that is not a
`Command` — including one with an unrecognised tag — exits the loop
and is returned unchanged. -/
def runEffectDyn (te : ε) (sem : ι → Except ε α) :
    DynEffect ι ε α π → Except ε (DynEffect ι ε α π)
  | .Success v => .ok (.Success v)
  | .Failure e => .ok (.Failure e)
  | .Unknown tag p => .ok (.Unknown tag p)
  | .Command c next =>
    match sem c with
    | .error e => .ok (.Failure e)
    | .ok r => runEffectDynR te sem (next r)

/-- Continuing the dynamic interpreter loop after a continuation: a
throw is caught and becomes a `Failure`; if the continuation returned
`undefined`, the loop condition reads `.type` of `undefined` outside
the `try`, so the async function rejects with a `TypeError` (`te`),
modelled as `.error te`. -/
def runEffectDynR (te : ε) (sem : ι → Except ε α) :
    DynRes ι ε α π → Except ε (DynEffect ι ε α π)
  | .thrown e => .ok (.Failure e)
  | .undef => .error te
  | .ok eff => runEffectDyn te sem eff

end

mutual

/-- Interpreter results are never commands: auxiliary mutual lemma for
effects. -/
theorem runEffect_isCommand_aux (sem : ι → Except ε α) :
    ∀ eff : Effect ι ε α, isCommand (runEffect sem eff) = false
  | .Success _ => rfl
  | .Failure _ => rfl
  | .Command c next =>
    match hs : sem c with
    | .error e => by simp [runEffect, hs, isCommand]
    | .ok r => by
      have ih := runEffectR_isCommand_aux sem (next r)
      simpa [runEffect, hs] using ih

/-- Interpreter results are never commands: auxiliary mutual lemma for
continuation results. -/
theorem runEffectR_isCommand_aux (sem : ι → Except ε α) :
    ∀ m : EffRes ι ε α, isCommand (runEffectR sem m) = false
  | .thrown _ => rfl
  | .ok eff => runEffect_isCommand_aux sem eff

end

mutual

/-- Associativity of `chain`, proved mutually with its lifting to
possibly-thrown results. -/
theorem chain_assoc_aux (e : Effect ι ε α) (f g : α → Effect ι ε α) :
    chain (chain e f) g = chain e (fun x => chain (f x) g) :=
  match e with
  | .Success _ => rfl
  | .Failure _ => rfl
  | .Command c next =>
    show Effect.Command c (fun result => chainR (chainR (next result) f) g)
        = Effect.Command c (fun result => chainR (next result) (fun x => chain (f x) g)) from
      congrArg (Effect.Command c)
        (funext fun result => chainR_assoc_aux (next result) f g)

/-- Associativity of `chainR` over possibly-thrown results. -/
theorem chainR_assoc_aux (m : EffRes ι ε α) (f g : α → Effect ι ε α) :
    chainR (chainR m f) g = chainR m (fun x => chain (f x) g) :=
  match m with
  | .thrown _ => rfl
  | .ok eff => congrArg EffRes.ok (chain_assoc_aux eff f g)

end

mutual

/-- Loop-iteration count equals the number of invoked commands:
auxiliary mutual lemma for effects. -/
theorem runIters_eq_length_aux (sem : ι → Except ε α) :
    ∀ eff : Effect ι ε α, runIters sem eff = (runTrace sem eff).length
  | .Success _ => rfl
  | .Failure _ => rfl
  | .Command c next =>
    match hs : sem c with
    | .error e => by simp [runIters, runTrace, hs]
    | .ok r => by
      have ih := runItersR_eq_length_aux sem (next r)
      simp [runIters, runTrace, hs, ih, Nat.add_comm]

/-- Loop-iteration count equals the number of invoked commands:
auxiliary mutual lemma for continuation results. -/
theorem runItersR_eq_length_aux (sem : ι → Except ε α) :
    ∀ m : EffRes ι ε α, runItersR sem m = (runTraceR sem m).length
  | .thrown _ => rfl
  | .ok eff => runIters_eq_length_aux sem eff

end

/-- In a straight-line chain whose commands all succeed and whose tail
is terminal, the interpreter performs exactly one iteration per
command. -/
theorem linChain_iters_aux (sem : ι → Except ε α) (term : Effect ι ε α)
    (h3 : isCommand term = false) :
    ∀ cs : List ι, (∀ d ∈ cs, ∃ r, sem d = Except.ok r) →
      runIters sem (linChain cs term) = cs.length := by
  intro cs
  induction cs with
  | nil =>
    intro _
    cases term with
    | Success v => rfl
    | Failure e => rfl
    | Command c next => simp [isCommand] at h3
  | cons d ds ih =>
    intro h2
    obtain ⟨r, hr⟩ := h2 d (List.mem_cons_self d ds)
    have step : runIters sem (linChain (d :: ds) term)
        = 1 + runIters sem (linChain ds term) := by
      simp [linChain, runIters, hr, runItersR]
    rw [step, ih (fun x hx => h2 x (List.mem_cons_of_mem d hx))]
    simp [Nat.add_comm]

/-- The source `reduce` agrees with the spec's accumulator recursion
for every intermediate accumulator. -/
theorem foldl_chain_pipeSpecGo (fns : List (α → Effect ι ε α)) :
    ∀ acc : Effect ι ε α, List.foldl chain acc fns = pipeSpecGo acc fns := by
  induction fns with
  | nil => intro acc; rfl
  | cons s rest ih => intro acc; simpa [List.foldl, pipeSpecGo] using ih (chain acc s)

/-- A pipeline of always-succeeding steps threads the unwrapped values
left to right. -/
theorem effectPipe_pureSteps_aux (gs : List (α → α)) :
    ∀ start : α,
      effectPipe (gs.map (pureStep : (α → α) → α → Effect ι ε α)) start
        = .Success (gs.foldl (fun v g => g v) start) := by
  induction gs with
  | nil => intro start; rfl
  | cons g rest ih =>
    intro start
    simpa [effectPipe, List.foldl, chain, pureStep] using ih (g start)

/-- C1: for every effect with a finite command chain, `runEffect`
returns a terminal outcome, never a `Command`; a `Success` or
`Failure` input is returned exactly as-is; and a `Failure` produced
by a continuation (as data, not a throw) is returned verbatim with
the interpreter's catch branch never firing. -/
theorem runEffect_terminal_outcome (sem : ι → Except ε α) (c : ι)
    (next : α → EffRes ι ε α) (r : α) (e : ε)
    (h1 : sem c = Except.ok r) (h2 : next r = .ok (.Failure e)) :
    (∀ eff : Effect ι ε α, isCommand (runEffect sem eff) = false) ∧
    (∀ v : α, runEffect sem (.Success v) = .Success v) ∧
    (∀ e2 : ε, runEffect sem (.Failure e2) = .Failure e2) ∧
    runEffect sem (.Command c next) = .Failure e ∧
    runCatches sem (.Command c next) = false := by
  refine ⟨runEffect_isCommand_aux sem, fun v => rfl, fun e2 => rfl, ?_, ?_⟩
  · simp [runEffect, h1, h2, runEffectR]
  · simp [runCatches, h1, h2, runCatchesR]

/-- Witness for C1 at a concrete interpreter run whose continuation
returns a `Failure` as data. -/
theorem runEffect_terminal_outcome_witness :
    (fun _ : Nat => (Except.ok 2 : Except Nat Nat)) 0 = Except.ok 2 ∧
    runEffect (fun _ : Nat => (Except.ok 2 : Except Nat Nat))
        (.Command 0 (fun _ => .ok (.Failure 7))) = .Failure 7 ∧
    runCatches (fun _ : Nat => (Except.ok 2 : Except Nat Nat))
        (.Command 0 (fun _ => .ok (.Failure 7))) = false :=
  ⟨rfl,
   (runEffect_terminal_outcome (fun _ : Nat => (Except.ok 2 : Except Nat Nat))
      0 (fun _ => .ok (.Failure 7)) 2 7 rfl rfl).2.2.2.1,
   (runEffect_terminal_outcome (fun _ : Nat => (Except.ok 2 : Except Nat Nat))
      0 (fun _ => .ok (.Failure 7)) 2 7 rfl rfl).2.2.2.2⟩

/-- C2: if a command's operation throws (or its awaited promise
rejects) with `E`, the interpreter stops at once and returns
`Failure E` with the error verbatim; the trace shows no later
operation or continuation is ever invoked. -/
theorem runEffect_operation_throw (sem : ι → Except ε α) (c : ι)
    (next : α → EffRes ι ε α) (E : ε) (h : sem c = Except.error E) :
    runEffect sem (.Command c next) = .Failure E ∧
    runTrace sem (.Command c next) = [c] := by
  constructor <;> simp [runEffect, runTrace, h]

/-- Witness for C2 at a concrete failing operation. -/
theorem runEffect_operation_throw_witness :
    runEffect (fun _ : Nat => (Except.error 5 : Except Nat Nat))
        (.Command 0 (fun _ => .ok (.Success 1))) = .Failure 5 ∧
    runTrace (fun _ : Nat => (Except.error 5 : Except Nat Nat))
        (.Command 0 (fun _ => .ok (.Success 1))) = [0] :=
  runEffect_operation_throw (fun _ : Nat => (Except.error 5 : Except Nat Nat))
    0 (fun _ => .ok (.Success 1)) 5 rfl

/-- C3: if the operation succeeds with `r` but the continuation
applied to `r` throws synchronously with `E`, the iteration's single
failure boundary catches it and the interpreter returns `Failure E`. -/
theorem runEffect_continuation_throw (sem : ι → Except ε α) (c : ι)
    (next : α → EffRes ι ε α) (r : α) (E : ε)
    (h1 : sem c = Except.ok r) (h2 : next r = .thrown E) :
    runEffect sem (.Command c next) = .Failure E := by
  simp [runEffect, h1, h2, runEffectR]

/-- Witness for C3 at a concrete throwing continuation. -/
theorem runEffect_continuation_throw_witness :
    runEffect (fun _ : Nat => (Except.ok 2 : Except Nat Nat))
        (.Command 0 (fun _ => .thrown 9)) = .Failure 9 :=
  runEffect_continuation_throw (fun _ : Nat => (Except.ok 2 : Except Nat Nat))
    0 (fun _ => .thrown 9) 2 9 rfl rfl

/-- C4: a three-step pipeline whose first step fails composes to that
exact `Failure`, the later steps being irrelevant (they are
universally quantified and never applied); in general `chain` on a
`Failure` returns it unchanged without invoking the supplied
function. -/
theorem effectPipe_short_circuit (s1 s2 s3 : α → Effect ι ε α) (start : α) (e : ε)
    (h : s1 start = .Failure e) :
    effectPipe [s1, s2, s3] start = .Failure e ∧
    (∀ fn : α → Effect ι ε α, chain (.Failure e) fn = .Failure e) := by
  refine ⟨?_, fun fn => rfl⟩
  show chain (chain (chain (.Success start) s1) s2) s3 = .Failure e
  rw [show chain (Effect.Success start) s1 = s1 start from rfl, h]
  rfl

/-- Witness for C4 at a concrete failing first step. -/
theorem effectPipe_short_circuit_witness :
    effectPipe [fun _ : Nat => (Effect.Failure 7 : Effect Nat Nat Nat),
        fun v => .Success v, fun v => .Success v] 0 = .Failure 7 :=
  (effectPipe_short_circuit (fun _ : Nat => (Effect.Failure 7 : Effect Nat Nat Nat))
    (fun v => .Success v) (fun v => .Success v) 0 7 rfl).1

/-- C5: the pipeline built by `effectPipe` equals the spec's fold that
begins with `Success start` and chains each step in order. -/
theorem effectPipe_eq_pipeSpec (fns : List (α → Effect ι ε α)) (start : α) :
    effectPipe fns start = pipeSpec fns start :=
  foldl_chain_pipeSpecGo fns (.Success start)

/-- C6: `chain` on a `Command` returns a new `Command` carrying the
identical operation label and the continuation that chains the stored
continuation's outcome with `fn` (propagating its throw); the head
operation is preserved, and since `chain` is never given an operation
semantics it cannot invoke the deferred operation. -/
theorem chain_command_structure (c : ι) (next : α → EffRes ι ε α)
    (fn : α → Effect ι ε α) (eff : Effect ι ε α) (e : ε) :
    chain (.Command c next) fn = .Command c (fun result => chainR (next result) fn) ∧
    chainR (.ok eff) fn = .ok (chain eff fn) ∧
    chainR (.thrown e) fn = .thrown e ∧
    headCmd (chain (.Command c next) fn) = some c :=
  ⟨rfl, rfl, rfl, rfl⟩

/-- C7: `chain` is associative on all three effect variants. -/
theorem chain_assoc (e : Effect ι ε α) (f g : α → Effect ι ε α) :
    chain (chain e f) g = chain e (fun x => chain (f x) g) :=
  chain_assoc_aux e f g

/-- C8: `chain` on a `Success` passes the unwrapped value straight to
the function, and a pipeline of always-succeeding steps threads each
step's `Success` value into the next step. -/
theorem success_threading (v : α) (fn : α → Effect ι ε α)
    (gs : List (α → α)) (start : α) :
    chain (Effect.Success v) fn = fn v ∧
    effectPipe (gs.map (pureStep : (α → α) → α → Effect ι ε α)) start
      = .Success (gs.foldl (fun v2 g => g v2) start) :=
  ⟨rfl, effectPipe_pureSteps_aux gs start⟩

/-- C9: the interpreter's loop-iteration count always equals the number
of commands whose operation was invoked; after a failing operation the
trace stops (nothing downstream is invoked); and a straight-line chain
of commands that all succeed, ending in a terminal effect, runs in
exactly one iteration per command. Termination itself is by
construction: `runEffect` is a total function on the (finite)
command-chain type. -/
theorem runEffect_iteration_count (sem : ι → Except ε α) (c : ι)
    (next : α → EffRes ι ε α) (e : ε) (cs : List ι) (term : Effect ι ε α)
    (h1 : sem c = Except.error e)
    (h2 : ∀ d ∈ cs, ∃ r, sem d = Except.ok r)
    (h3 : isCommand term = false) :
    (∀ eff : Effect ι ε α, runIters sem eff = (runTrace sem eff).length) ∧
    runTrace sem (.Command c next) = [c] ∧
    runIters sem (linChain cs term) = cs.length := by
  refine ⟨runIters_eq_length_aux sem, ?_, linChain_iters_aux sem term h3 cs h2⟩
  simp [runTrace, h1]

/-- Witness for C9 with a concrete semantics failing on command 0 and
succeeding on commands 1 and 2. -/
theorem runEffect_iteration_count_witness :
    runTrace (fun n : Nat => if n = 0 then (Except.error 7 : Except Nat Nat) else Except.ok 2)
        (.Command 0 (fun _ => .ok (.Success 1))) = [0] ∧
    runIters (fun n : Nat => if n = 0 then (Except.error 7 : Except Nat Nat) else Except.ok 2)
        (linChain [1, 2] (.Success 9)) = 2 := by
  have h2 : ∀ d ∈ [1, 2],
      ∃ r, (fun n : Nat => if n = 0 then (Except.error 7 : Except Nat Nat) else Except.ok 2) d
        = Except.ok r := by
    intro d hd
    fin_cases hd <;> exact ⟨2, rfl⟩
  have h := runEffect_iteration_count
    (fun n : Nat => if n = 0 then (Except.error 7 : Except Nat Nat) else Except.ok 2)
    0 (fun _ => .ok (.Success 1)) 7 [1, 2] (.Success 9) rfl h2 rfl
  exact ⟨h.2.1, h.2.2⟩

/-- C10: an object whose tag is none of the three declared variants
makes `chain` return `undefined` (the `switch` has no default branch),
while `runEffect` returns the object unchanged (the `while` loop only
tests for the `Command` tag), even though it is not a terminal
outcome. -/
theorem unknown_tag_behavior (tag : String) (p : π)
    (fn : α → DynEffect ι ε α π) (te : ε) (sem : ι → Except ε α)
    (h : tag ≠ "Success" ∧ tag ≠ "Failure" ∧ tag ≠ "Command") :
    chainDyn te (.Unknown tag p) fn = none ∧
    runEffectDyn te sem (.Unknown tag p) = .ok (.Unknown tag p) :=
  ⟨rfl, rfl⟩

/-- Witness for C10 at a concrete unrecognised tag. -/
theorem unknown_tag_behavior_witness :
    chainDyn (99 : Nat) (DynEffect.Unknown "Widget" (0 : Nat) : DynEffect Nat Nat Nat Nat)
        (fun v => .Success v) = none ∧
    runEffectDyn (99 : Nat) (fun _ : Nat => (Except.ok 0 : Except Nat Nat))
        (DynEffect.Unknown "Widget" (0 : Nat) : DynEffect Nat Nat Nat Nat)
      = .ok (.Unknown "Widget" 0) :=
  unknown_tag_behavior "Widget" 0 (fun v => .Success v) 99
    (fun _ : Nat => (Except.ok 0 : Except Nat Nat)) (by decide)

end PureEffect
